import Mathlib

/-!
Verification of the tile streaming and cache subsystem of RustOpenGLMap.

The definitions below are a shallow embedding of the Rust sources
(src/tile.rs, src/viewport.rs, src/opengl_helper.rs, src/main.rs):

* `TilePos` and its operations `zoom_in`, `zoom_out`, `get_crop` embed
  src/tile.rs.  `u8`/`u32` fields become `Nat`; where the source could
  wrap (u32 arithmetic in release mode, i32 casts) the wrap is modelled
  explicitly with `% 2^32` and a signed reinterpretation.  `i32`
  arithmetic in `get_crop` is modelled on `Int` with truncated
  division/remainder (`Int.tdiv`/`Int.tmod`), matching Rust `/` and `%`.
* `Viewport` embeds src/viewport.rs with `f64` modelled as `ℚ` (all the
  operations involved are exact dyadic arithmetic).
* The fetch pipeline (src/opengl_helper.rs `fetch_tile`,
  `fetch_tile_from_server`, `get_file_path`, and the worker / network /
  drain loops of src/main.rs) is embedded with the external
  collaborators (HTTP transport, image codec, disk) as explicit
  function parameters, and the `lru::LruCache` as a most-recent-first
  association list.
-/

/-- MAX_ZOOM from src/tile.rs line 1. -/
def MAX_ZOOM : Nat := 19

/-- TilePos from src/tile.rs: z (u8 zoom), x (u32 column), y (u32 row),
m (u8 imagery-source id). -/
structure TilePos where
  z : Nat
  x : Nat
  y : Nat
  m : Nat
  deriving DecidableEq, Repr

/-- Signed reinterpretation of a u32 value as an i32 (`child.x as i32`
in src/tile.rs `get_crop`). -/
def u32_as_i32 (x : Nat) : Int :=
  if x % 2 ^ 32 < 2 ^ 31 then (x % 2 ^ 32 : Nat) else (x % 2 ^ 32 : Nat) - 2 ^ 32

/-- TilePos::zoom_in from src/tile.rs: child tile under (u, v); no-op at
MAX_ZOOM.  `f64` fractions are modelled as `ℚ`; u32 doubling wraps. -/
def TilePos.zoom_in (t : TilePos) (u v : ℚ) : TilePos :=
  if MAX_ZOOM ≤ t.z then t
  else
    { z := t.z + 1
      x := (t.x * 2 + if (1 : ℚ)/2 ≤ u then 1 else 0) % 2 ^ 32
      y := (t.y * 2 + if (1 : ℚ)/2 ≤ v then 1 else 0) % 2 ^ 32
      m := t.m }

/-- TilePos::zoom_out from src/tile.rs: parent tile; no-op at zoom 0. -/
def TilePos.zoom_out (t : TilePos) : TilePos :=
  if t.z = 0 then t else { z := t.z - 1, x := t.x / 2, y := t.y / 2, m := t.m }

/-- TilePos::get_crop from src/tile.rs: pixel sub-rectangle of `self`
(256×256) covered by descendant `child`, at depth clamped to [0, 8].
All arithmetic is i32 arithmetic, modelled on `Int`. -/
def TilePos.get_crop (self child : TilePos) : Int × Int × Int × Int :=
  let dz : Int := min 8 (max 0 ((child.z : Int) - (self.z : Int)))
  let p : Int := 2 ^ dz.toNat
  let s : Int := Int.tdiv 256 p
  let xx := (Int.tmod (u32_as_i32 child.x) p) * s
  let yy := (Int.tmod (u32_as_i32 child.y) p) * s
  (xx, yy, s, s)

/-- Viewport from src/viewport.rs; `f64` fields modelled as `ℚ`. -/
structure Viewport where
  z : Nat
  center_x : ℚ
  center_y : ℚ
  rm_x : ℚ
  rm_y : ℚ
  deriving DecidableEq, Repr

/-- Viewport::pan from src/viewport.rs. -/
def Viewport.pan (v : Viewport) (dx dy : ℚ) : Viewport :=
  { v with center_x := v.center_x + dx, center_y := v.center_y + dy,
           rm_x := 0, rm_y := 0 }

/-- Viewport::zoom_in from src/viewport.rs: when z < 19, double the
center, increment z, then pan by (0.5, 0.5). -/
def Viewport.zoom_in (v : Viewport) : Viewport :=
  if v.z < 19 then
    Viewport.pan { v with center_x := v.center_x * 2, center_y := v.center_y * 2,
                          z := v.z + 1 } ((1 : ℚ)/2) ((1 : ℚ)/2)
  else v

/-- Viewport::zoom_out from src/viewport.rs: when z > 0, halve the
center, decrement z, then pan by (-0.5, -0.5). -/
def Viewport.zoom_out (v : Viewport) : Viewport :=
  if 0 < v.z then
    Viewport.pan { v with center_x := v.center_x / 2, center_y := v.center_y / 2,
                          z := v.z - 1 } (-((1 : ℚ)/2)) (-((1 : ℚ)/2))
  else v

/-! ## C1: viewport pan/zoom identity -/

/-- C1 counterexample: at the program's own initial viewport
(z = 1, center = (1, 1)), `zoom_in(); zoom_out()` keeps the zoom but
moves each center coordinate to 3/4 — a displacement of exactly 1/4
tile, not a floating-point rounding remnant (all the operations
involved are exact in f64 at these values).  The claimed identity of
(center_x, center_y) is therefore false. -/
theorem c1_counterexample :
    ((Viewport.zoom_out (Viewport.zoom_in ⟨1, 1, 1, 0, 0⟩)).z = 1
      ∧ (Viewport.zoom_out (Viewport.zoom_in ⟨1, 1, 1, 0, 0⟩)).center_x = 3/4
      ∧ (Viewport.zoom_out (Viewport.zoom_in ⟨1, 1, 1, 0, 0⟩)).center_y = 3/4)
    ∧ ¬ ((Viewport.zoom_out (Viewport.zoom_in ⟨1, 1, 1, 0, 0⟩)).center_x
          = (⟨1, 1, 1, 0, 0⟩ : Viewport).center_x) := by
  refine ⟨⟨?_, ?_, ?_⟩, ?_⟩ <;>
    simp [Viewport.zoom_in, Viewport.zoom_out, Viewport.pan] <;> norm_num

/-- C1 amended: for every viewport with zoom strictly between 0 and
MAX_ZOOM, `zoom_in(); zoom_out()` leaves the zoom unchanged but shifts
each center coordinate by exactly -1/4 (the pan(0.5, 0.5) applied after
the ×2 rescale and the pan(-0.5, -0.5) applied after the ÷2 rescale do
not cancel). -/
theorem c1_amended (v : Viewport) (_hz0 : 0 < v.z) (hz : v.z < MAX_ZOOM) :
    (Viewport.zoom_out (Viewport.zoom_in v)).z = v.z
      ∧ (Viewport.zoom_out (Viewport.zoom_in v)).center_x = v.center_x - 1/4
      ∧ (Viewport.zoom_out (Viewport.zoom_in v)).center_y = v.center_y - 1/4 := by
  have hz19 : v.z < 19 := hz
  simp [Viewport.zoom_in, Viewport.zoom_out, Viewport.pan, hz19]
  constructor <;> ring

/-- C1 amended, witness at the initial viewport. -/
theorem c1_amended_witness :
    (0 < (1 : Nat) ∧ (1 : Nat) < MAX_ZOOM)
      ∧ ((Viewport.zoom_out (Viewport.zoom_in ⟨1, 1, 1, 0, 0⟩)).z = 1
          ∧ (Viewport.zoom_out (Viewport.zoom_in ⟨1, 1, 1, 0, 0⟩)).center_x = 1 - 1/4
          ∧ (Viewport.zoom_out (Viewport.zoom_in ⟨1, 1, 1, 0, 0⟩)).center_y = 1 - 1/4) :=
  ⟨⟨by decide, by decide⟩, c1_amended ⟨1, 1, 1, 0, 0⟩ (by decide) (by decide)⟩

/-! ## C7: pyramid round-trip -/

/-- C7: for every address satisfying the pyramid invariant with
zoom < MAX_ZOOM and any u, v, `zoom_out (zoom_in A u v)` equals A. -/
theorem c7_zoom_roundtrip (t : TilePos) (u v : ℚ)
    (hz : t.z < MAX_ZOOM) (hx : t.x < 2 ^ t.z) (hy : t.y < 2 ^ t.z) :
    (t.zoom_in u v).zoom_out = t := by
  obtain ⟨z, x, y, m⟩ := t
  simp only at hz hx hy
  have hz19 : z < 19 := hz
  have hpow : (2 : Nat) ^ z ≤ 524288 := by
    calc (2 : Nat) ^ z ≤ 2 ^ 19 := Nat.pow_le_pow_right (by norm_num) (by omega)
    _ = 524288 := by norm_num
  have hbu : (if (1 : ℚ)/2 ≤ u then (1 : Nat) else 0) ≤ 1 := by split <;> omega
  have hbv : (if (1 : ℚ)/2 ≤ v then (1 : Nat) else 0) ≤ 1 := by split <;> omega
  have hxm : (x * 2 + if (1 : ℚ)/2 ≤ u then (1 : Nat) else 0) % 2 ^ 32
      = x * 2 + if (1 : ℚ)/2 ≤ u then (1 : Nat) else 0 := by
    apply Nat.mod_eq_of_lt
    have : (2 : Nat) ^ 32 = 4294967296 := by norm_num
    omega
  have hym : (y * 2 + if (1 : ℚ)/2 ≤ v then (1 : Nat) else 0) % 2 ^ 32
      = y * 2 + if (1 : ℚ)/2 ≤ v then (1 : Nat) else 0 := by
    apply Nat.mod_eq_of_lt
    have : (2 : Nat) ^ 32 = 4294967296 := by norm_num
    omega
  unfold TilePos.zoom_in
  rw [if_neg (show ¬ MAX_ZOOM ≤ z by unfold MAX_ZOOM; omega)]
  unfold TilePos.zoom_out
  rw [if_neg (show ¬ z + 1 = 0 by omega)]
  simp only [TilePos.mk.injEq, and_true]
  refine ⟨by omega, ?_, ?_⟩
  · rw [hxm]; omega
  · rw [hym]; omega

/-- C7 witness at a concrete valid address and offsets. -/
theorem c7_zoom_roundtrip_witness :
    ((5 : Nat) < MAX_ZOOM ∧ (3 : Nat) < 2 ^ 5 ∧ (7 : Nat) < 2 ^ 5)
      ∧ ((⟨5, 3, 7, 0⟩ : TilePos).zoom_in (3/4) (1/4)).zoom_out = ⟨5, 3, 7, 0⟩ :=
  ⟨⟨by decide, by decide, by decide⟩,
    c7_zoom_roundtrip ⟨5, 3, 7, 0⟩ (3/4) (1/4) (by decide) (by decide) (by decide)⟩

/-! ## C6: ancestor crop formula -/

/-- C6: for addresses with valid (u32-representable, in fact pyramid
range) columns and rows, `get_crop` returns exactly
(x, y, s, s) with period = 2^d, s = 256 / period,
x = (child.column mod period) * s, y = (child.row mod period) * s,
where d is the zoom difference clamped to [0, 8]. -/
theorem c6_get_crop_formula (a d : TilePos)
    (hx : d.x < 2 ^ 31) (hy : d.y < 2 ^ 31) :
    a.get_crop d =
      (((d.x % 2 ^ (min 8 (d.z - a.z)) * (256 / 2 ^ (min 8 (d.z - a.z))) : Nat) : Int),
       ((d.y % 2 ^ (min 8 (d.z - a.z)) * (256 / 2 ^ (min 8 (d.z - a.z))) : Nat) : Int),
       ((256 / 2 ^ (min 8 (d.z - a.z)) : Nat) : Int),
       ((256 / 2 ^ (min 8 (d.z - a.z)) : Nat) : Int)) := by
  have hx32 : d.x < 2 ^ 32 := lt_trans hx (by norm_num)
  have hy32 : d.y < 2 ^ 32 := lt_trans hy (by norm_num)
  have hcast : u32_as_i32 d.x = (d.x : Int) := by
    unfold u32_as_i32
    rw [Nat.mod_eq_of_lt hx32, if_pos hx]
  have hcasty : u32_as_i32 d.y = (d.y : Int) := by
    unfold u32_as_i32
    rw [Nat.mod_eq_of_lt hy32, if_pos hy]
  have hdz : min 8 (max 0 ((d.z : Int) - (a.z : Int))) = ((min 8 (d.z - a.z) : Nat) : Int) := by
    rcases Nat.le_total d.z a.z with h | h
    · have : (d.z : Int) - (a.z : Int) ≤ 0 := by
        omega
      rw [max_eq_left this]
      have : d.z - a.z = 0 := by omega
      simp [this]
    · have h0 : (0 : Int) ≤ (d.z : Int) - (a.z : Int) := by omega
      rw [max_eq_right h0]
      have : ((min 8 (d.z - a.z) : Nat) : Int) = min 8 ((d.z : Int) - (a.z : Int)) := by
        push_cast
        omega
      omega
  set k : Nat := min 8 (d.z - a.z) with hk
  simp only [TilePos.get_crop]
  rw [hdz, hcast, hcasty, Int.toNat_natCast]
  have hpow : ((2 : Int) ^ k) = ((2 ^ k : Nat) : Int) := by push_cast; ring
  rw [hpow]
  have htdiv : Int.tdiv (256 : Int) ((2 ^ k : Nat) : Int) = ((256 / 2 ^ k : Nat) : Int) := rfl
  have htmodx : Int.tmod ((d.x : Int)) ((2 ^ k : Nat) : Int) = ((d.x % 2 ^ k : Nat) : Int) := rfl
  have htmody : Int.tmod ((d.y : Int)) ((2 ^ k : Nat) : Int) = ((d.y % 2 ^ k : Nat) : Int) := rfl
  rw [htdiv, htmodx, htmody]
  simp only [Prod.mk.injEq]
  push_cast
  simp

/-- C6 witness: the claim's concrete instance — ancestor (0,0,0),
descendant (zoom 5, col 3, row 7): crop (24, 56, 8, 8). -/
theorem c6_get_crop_formula_witness :
    ((3 : Nat) < 2 ^ 31 ∧ (7 : Nat) < 2 ^ 31)
      ∧ (⟨0, 0, 0, 0⟩ : TilePos).get_crop ⟨5, 3, 7, 0⟩ = (24, 56, 8, 8) := by
  refine ⟨⟨by norm_num, by norm_num⟩, ?_⟩
  have h := c6_get_crop_formula ⟨0, 0, 0, 0⟩ ⟨5, 3, 7, 0⟩ (by norm_num) (by norm_num)
  rw [h]
  norm_num

/-! ## C5: on-disk path naming (get_file_path from src/opengl_helper.rs) -/

/-- Decimal representation of an unsigned integer, most significant
digit first, as produced by the `{}` Display format in Rust (zero
prints as "0"). -/
def natStr (n : Nat) : String :=
  if n = 0 then "0"
  else ⟨(Nat.digits 10 n).reverse.map fun d => Char.ofNat (48 + d)⟩

/-- get_file_path from src/opengl_helper.rs: "Tiles/OSMTile_{z}_{x}_{y}.png"
for source 0, "Tiles/ESRITile_{z}_{x}_{y}.png" for every other source. -/
def get_file_path (loaded_tile : TilePos) : String :=
  if loaded_tile.m = 0 then
    "Tiles/OSMTile_" ++ natStr loaded_tile.z ++ "_" ++ natStr loaded_tile.x
      ++ "_" ++ natStr loaded_tile.y ++ ".png"
  else
    "Tiles/ESRITile_" ++ natStr loaded_tile.z ++ "_" ++ natStr loaded_tile.x
      ++ "_" ++ natStr loaded_tile.y ++ ".png"

/-- Appending strings concatenates their character lists. -/
theorem string_data_append (s t : String) : (s ++ t).data = s.data ++ t.data := rfl

/-- Character value of a decimal digit character. -/
theorem digit_char_val (d : Nat) (h : d < 10) : (Char.ofNat (48 + d)).toNat = 48 + d := by
  interval_cases d <;> decide

/-- Decimal digit characters are never an underscore. -/
theorem digit_char_ne_underscore (d : Nat) (h : d < 10) :
    Char.ofNat (48 + d) ≠ ('_' : Char) := by
  interval_cases d <;> decide

/-- No character of a decimal representation is an underscore. -/
theorem natStr_no_underscore (n : Nat) : ∀ c ∈ (natStr n).data, c ≠ ('_' : Char) := by
  unfold natStr
  split
  · intro c hc
    simp only [show ("0" : String).data = ['0'] from rfl, List.mem_singleton] at hc
    subst hc
    decide
  · intro c hc
    have hc2 : c ∈ (Nat.digits 10 n).reverse.map fun d => Char.ofNat (48 + d) := hc
    obtain ⟨d, hd, rfl⟩ := List.mem_map.mp hc2
    exact digit_char_ne_underscore d
      (Nat.digits_lt_base (by norm_num) (List.mem_reverse.mp hd))

/-- The digit-to-character map is injective on lists of decimal digits. -/
theorem digit_map_inj : ∀ (l₁ l₂ : List Nat), (∀ d ∈ l₁, d < 10) → (∀ d ∈ l₂, d < 10) →
    l₁.map (fun d => Char.ofNat (48 + d)) = l₂.map (fun d => Char.ofNat (48 + d)) →
    l₁ = l₂ := by
  intro l₁
  induction l₁ with
  | nil =>
    intro l₂ _ _ h
    have := (List.map_eq_nil_iff.mp h.symm)
    simp [this]
  | cons a as ih =>
    intro l₂ h₁ h₂ h
    cases l₂ with
    | nil => simp at h
    | cons b bs =>
      simp only [List.map_cons, List.cons.injEq] at h
      have ha : a < 10 := h₁ a (by simp)
      have hb : b < 10 := h₂ b (by simp)
      have hab : a = b := by
        have := congrArg Char.toNat h.1
        rw [digit_char_val a ha, digit_char_val b hb] at this
        omega
      have hrest : as = bs :=
        ih bs (fun d hd => h₁ d (by simp [hd])) (fun d hd => h₂ d (by simp [hd])) h.2
      rw [hab, hrest]

/-- The decimal representation is injective (at the character-list level). -/
theorem natStr_data_inj (a b : Nat) (h : (natStr a).data = (natStr b).data) : a = b := by
  unfold natStr at h
  by_cases ha : a = 0 <;> by_cases hb : b = 0
  · omega
  · exfalso
    rw [if_pos ha, if_neg hb] at h
    have h2 : (['0'] : List Char) = (Nat.digits 10 b).reverse.map fun d => Char.ofNat (48 + d) :=
      h
    have hlen : ((Nat.digits 10 b).reverse.map fun d => Char.ofNat (48 + d)).length = 1 := by
      rw [← h2]; rfl
    simp only [List.length_map, List.length_reverse] at hlen
    obtain ⟨d, hd⟩ := List.length_eq_one.mp hlen
    rw [hd] at h2
    simp only [List.reverse_cons, List.reverse_nil, List.nil_append, List.map_cons,
      List.map_nil, List.cons.injEq] at h2
    have hd10 : d < 10 := Nat.digits_lt_base (by norm_num) (by rw [hd]; simp)
    have hdv := congrArg Char.toNat h2.1
    rw [digit_char_val d hd10] at hdv
    have hd0 : d = 0 := by
      have : ('0' : Char).toNat = 48 := by decide
      omega
    have hob := Nat.ofDigits_digits 10 b
    rw [hd, hd0] at hob
    have hb0 : b = 0 := by
      simpa [Nat.ofDigits] using hob.symm
    exact hb hb0
  · exfalso
    rw [if_neg ha, if_pos hb] at h
    have h2 : (['0'] : List Char) = (Nat.digits 10 a).reverse.map fun d => Char.ofNat (48 + d) :=
      h.symm
    have hlen : ((Nat.digits 10 a).reverse.map fun d => Char.ofNat (48 + d)).length = 1 := by
      rw [← h2]; rfl
    simp only [List.length_map, List.length_reverse] at hlen
    obtain ⟨d, hd⟩ := List.length_eq_one.mp hlen
    rw [hd] at h2
    simp only [List.reverse_cons, List.reverse_nil, List.nil_append, List.map_cons,
      List.map_nil, List.cons.injEq] at h2
    have hd10 : d < 10 := Nat.digits_lt_base (by norm_num) (by rw [hd]; simp)
    have hdv := congrArg Char.toNat h2.1
    rw [digit_char_val d hd10] at hdv
    have hd0 : d = 0 := by
      have : ('0' : Char).toNat = 48 := by decide
      omega
    have hoa := Nat.ofDigits_digits 10 a
    rw [hd, hd0] at hoa
    have ha0 : a = 0 := by
      simpa [Nat.ofDigits] using hoa.symm
    exact ha ha0
  · rw [if_neg ha, if_neg hb] at h
    have hdig : Nat.digits 10 a = Nat.digits 10 b := by
      have := digit_map_inj (Nat.digits 10 a).reverse (Nat.digits 10 b).reverse
        (fun d hd => Nat.digits_lt_base (by norm_num) (List.mem_reverse.mp hd))
        (fun d hd => Nat.digits_lt_base (by norm_num) (List.mem_reverse.mp hd)) h
      exact List.reverse_inj.mp this
    have := congrArg (Nat.ofDigits 10) hdig
    rwa [Nat.ofDigits_digits, Nat.ofDigits_digits] at this

/-- Splitting a character list at an underscore is unambiguous when the
prefixes are underscore-free. -/
theorem split_underscore : ∀ (a₁ a₂ r₁ r₂ : List Char),
    (∀ c ∈ a₁, c ≠ ('_' : Char)) → (∀ c ∈ a₂, c ≠ ('_' : Char)) →
    a₁ ++ ('_' : Char) :: r₁ = a₂ ++ ('_' : Char) :: r₂ → a₁ = a₂ ∧ r₁ = r₂ := by
  intro a₁
  induction a₁ with
  | nil =>
    intro a₂ r₁ r₂ _ h₂ heq
    cases a₂ with
    | nil => simpa using heq
    | cons b bs =>
      exfalso
      simp only [List.nil_append, List.cons_append, List.cons.injEq] at heq
      exact h₂ b (by simp) heq.1.symm
  | cons a as ih =>
    intro a₂ r₁ r₂ h₁ h₂ heq
    cases a₂ with
    | nil =>
      exfalso
      simp only [List.nil_append, List.cons_append, List.cons.injEq] at heq
      exact h₁ a (by simp) heq.1
    | cons b bs =>
      simp only [List.cons_append, List.cons.injEq] at heq
      obtain ⟨hab, hrest⟩ := heq
      obtain ⟨h3, h4⟩ := ih bs r₁ r₂ (fun c hc => h₁ c (by simp [hc]))
        (fun c hc => h₂ c (by simp [hc])) hrest
      exact ⟨by rw [hab, h3], h4⟩

/-- Character-list shape of an OSM (source 0) tile path. -/
theorem path_data_osm (t : TilePos) (h : t.m = 0) :
    (get_file_path t).data =
      "Tiles/OSMTile_".data ++ ((natStr t.z).data ++ (('_' : Char) ::
        ((natStr t.x).data ++ (('_' : Char) ::
          ((natStr t.y).data ++ ".png".data))))) := by
  simp [get_file_path, h, string_data_append, List.append_assoc]

/-- Character-list shape of a non-OSM (source ≠ 0) tile path. -/
theorem path_data_esri (t : TilePos) (h : t.m ≠ 0) :
    (get_file_path t).data =
      "Tiles/ESRITile_".data ++ ((natStr t.z).data ++ (('_' : Char) ::
        ((natStr t.x).data ++ (('_' : Char) ::
          ((natStr t.y).data ++ ".png".data))))) := by
  simp [get_file_path, h, string_data_append, List.append_assoc]

/-- C5 counterexample: sources 1 and 2 (both selectable in main.rs via
the keypad) differ, yet share one file path for the same (zoom, column,
row), so they are not distinct cache entries — the claimed injectivity
in the source id fails for nonzero sources. -/
theorem c5_counterexample :
    get_file_path ⟨0, 0, 0, 1⟩ = get_file_path ⟨0, 0, 0, 2⟩
      ∧ (⟨0, 0, 0, 1⟩ : TilePos) ≠ ⟨0, 0, 0, 2⟩ := by
  constructor
  · rfl
  · decide

/-- C5 amended: the path is injective once the source id is restricted
to the two provider ids 0 and 1 that the URL schemes distinguish: two
addresses with source ∈ {0, 1} that differ in any of (source, zoom,
column, row) map to distinct file paths. -/
theorem c5_amended (t₁ t₂ : TilePos) (h₁ : t₁.m ≤ 1) (h₂ : t₂.m ≤ 1)
    (heq : get_file_path t₁ = get_file_path t₂) : t₁ = t₂ := by
  have hd := congrArg String.data heq
  have hcross : ∀ r₁ r₂ : List Char,
      "Tiles/OSMTile_".data ++ r₁ = "Tiles/ESRITile_".data ++ r₂ → False := by
    intro r₁ r₂ hc
    have h7 := congrArg (List.take 7) hc
    rw [List.take_append_of_le_length (by decide),
      List.take_append_of_le_length (by decide)] at h7
    exact absurd h7 (by decide)
  obtain ⟨z₁, x₁, y₁, m₁⟩ := t₁
  obtain ⟨z₂, x₂, y₂, m₂⟩ := t₂
  simp only at h₁ h₂
  interval_cases m₁ <;> interval_cases m₂
  · rw [path_data_osm ⟨z₁, x₁, y₁, 0⟩ rfl, path_data_osm ⟨z₂, x₂, y₂, 0⟩ rfl] at hd
    have hz := List.append_cancel_left hd
    obtain ⟨hzz, hrest⟩ := split_underscore _ _ _ _
      (natStr_no_underscore _) (natStr_no_underscore _) hz
    obtain ⟨hxx, hrest2⟩ := split_underscore _ _ _ _
      (natStr_no_underscore _) (natStr_no_underscore _) hrest
    have hyy := List.append_cancel_right hrest2
    simp only [TilePos.mk.injEq]
    exact ⟨natStr_data_inj _ _ hzz, natStr_data_inj _ _ hxx, natStr_data_inj _ _ hyy, trivial⟩
  · exfalso
    rw [path_data_osm ⟨z₁, x₁, y₁, 0⟩ rfl, path_data_esri ⟨z₂, x₂, y₂, 1⟩ Nat.one_ne_zero] at hd
    exact hcross _ _ hd
  · exfalso
    rw [path_data_esri ⟨z₁, x₁, y₁, 1⟩ Nat.one_ne_zero, path_data_osm ⟨z₂, x₂, y₂, 0⟩ rfl] at hd
    exact hcross _ _ hd.symm
  · rw [path_data_esri ⟨z₁, x₁, y₁, 1⟩ Nat.one_ne_zero, path_data_esri ⟨z₂, x₂, y₂, 1⟩ Nat.one_ne_zero] at hd
    have hz := List.append_cancel_left hd
    obtain ⟨hzz, hrest⟩ := split_underscore _ _ _ _
      (natStr_no_underscore _) (natStr_no_underscore _) hz
    obtain ⟨hxx, hrest2⟩ := split_underscore _ _ _ _
      (natStr_no_underscore _) (natStr_no_underscore _) hrest
    have hyy := List.append_cancel_right hrest2
    simp only [TilePos.mk.injEq]
    exact ⟨natStr_data_inj _ _ hzz, natStr_data_inj _ _ hxx, natStr_data_inj _ _ hyy, trivial⟩

/-- C5 amended, witness at a concrete pair of valid sources. -/
theorem c5_amended_witness :
    ((0 : Nat) ≤ 1 ∧ (1 : Nat) ≤ 1
      ∧ get_file_path ⟨3, 2, 5, 0⟩ = get_file_path ⟨3, 2, 5, 0⟩)
      ∧ (⟨3, 2, 5, 0⟩ : TilePos) = ⟨3, 2, 5, 0⟩ :=
  ⟨⟨by decide, by decide, rfl⟩, c5_amended ⟨3, 2, 5, 0⟩ ⟨3, 2, 5, 0⟩ (by decide) (by decide) rfl⟩

/-! ## C8: network-fetch thread ordering (src/main.rs lines 260-295) -/

/-- Events seen by the network-fetch thread loop in src/main.rs: a
successful try_recv of an enqueued address, or an empty receive, which
makes the thread pop and fetch the most recently buffered address. -/
inductive NetEvent where
  | enq (t : TilePos)
  | drain
  deriving DecidableEq, Repr

/-- State of the network-fetch thread: the pending VecDeque buffer
(front first) and the sequence of addresses passed to
fetch_tile_from_server so far, in order. -/
structure NetState where
  buffer : List TilePos
  fetched : List TilePos
  deriving DecidableEq, Repr

/-- One iteration of the network-fetch thread loop in src/main.rs: on a
received address, push_back then pop_front if more than 64 are pending;
on an empty receive, pop_back the most recent pending address and fetch
it (sleeping if the buffer is empty). -/
def netStep (s : NetState) : NetEvent → NetState
  | .enq t =>
    let b := s.buffer ++ [t]
    { s with buffer := if 64 < b.length then b.tail else b }
  | .drain =>
    match s.buffer.getLast? with
    | none => s
    | some t => { buffer := s.buffer.dropLast, fetched := s.fetched ++ [t] }

/-- The network-fetch thread run from an empty buffer over a sequence of
events. -/
def netRun (events : List NetEvent) : NetState :=
  events.foldl netStep ⟨[], []⟩

/-- The network thread buffer never exceeds 64 pending addresses. -/
theorem net_buffer_le (events : List NetEvent) :
    ∀ s : NetState, s.buffer.length ≤ 64 → ((events.foldl netStep s).buffer.length ≤ 64) := by
  induction events with
  | nil => intro s hs; exact hs
  | cons e rest ih =>
    intro s hs
    apply ih
    cases e with
    | enq t =>
      simp only [netStep]
      split
      next h =>
        simp only [List.length_append, List.length_cons, List.length_nil] at h
        simp only [List.length_tail, List.length_append, List.length_cons,
          List.length_nil]
        omega
      next h =>
        simp only [List.length_append, List.length_cons, List.length_nil] at h
        simp only [List.length_append, List.length_cons, List.length_nil]
        omega
    | drain =>
      simp only [netStep]
      cases hl : s.buffer.getLast? with
      | none => simpa using hs
      | some t =>
        simp only [List.length_dropLast]
        omega

/-- C8: the network-fetch thread services its pending buffer in
most-recent-first (stack) order with the buffer bounded at 64.
(1) From an empty buffer, any event sequence leaves at most 64 pending.
(2) Enqueuing T1, T2, T3 with no drain in between and then draining
fetches them in the order [T3, T2, T1], so T3 is fetched before T1.
(3) An enqueue onto a full buffer of 64 drops the oldest (front) entry. -/
theorem c8_network_stack_order :
    (∀ events : List NetEvent, (netRun events).buffer.length ≤ 64)
      ∧ (∀ t1 t2 t3 : TilePos,
          (netRun [.enq t1, .enq t2, .enq t3, .drain, .drain, .drain]).fetched
            = [t3, t2, t1])
      ∧ (∀ (s : NetState) (t : TilePos), s.buffer.length = 64 →
          (netStep s (.enq t)).buffer = s.buffer.tail ++ [t]) := by
  refine ⟨?_, ?_, ?_⟩
  · intro events
    exact net_buffer_le events ⟨[], []⟩ (by simp)
  · intro t1 t2 t3
    rfl
  · intro s t hlen
    simp only [netStep]
    rw [if_pos (by simp [hlen])]
    cases hb : s.buffer with
    | nil => rw [hb] at hlen; simp at hlen
    | cons a l => simp

/-- C8 witness: enqueuing onto a buffer of exactly 64 pending addresses
drops the front entry. -/
theorem c8_network_stack_order_witness :
    (List.replicate 64 (⟨0, 0, 0, 0⟩ : TilePos)).length = 64
      ∧ (netStep ⟨List.replicate 64 ⟨0, 0, 0, 0⟩, []⟩ (.enq ⟨1, 1, 1, 0⟩)).buffer
          = (List.replicate 64 (⟨0, 0, 0, 0⟩ : TilePos)).tail ++ [⟨1, 1, 1, 0⟩] :=
  ⟨by simp, c8_network_stack_order.2.2 ⟨List.replicate 64 ⟨0, 0, 0, 0⟩, []⟩ ⟨1, 1, 1, 0⟩ (by simp)⟩

/-! ## C2: the fetch_tile ancestor-search loop (src/opengl_helper.rs 348-405) -/

/-- Outcome variants of TileLoad from src/tile.rs, with the pixel
payloads abstracted away (the texture contents do not affect the
control flow being verified). -/
inductive TileLoadM where
  | Loaded (source_tile : TilePos)
  | Loading (source_tile target_tile : TilePos)
  | Failed
  deriving DecidableEq, Repr

/-- Mutable state of the fetch_tile loop in src/opengl_helper.rs: the
current outcome, the first_load flag, the current ancestor being
probed, and the on-disk store, modelled as the set of existing paths
(the loop can shrink it by deleting undecodable entries). -/
structure FetchTileState where
  tile_state : TileLoadM
  first_load : Bool
  loaded_tile : TilePos
  store : String → Bool

/-- Guard of the fetch_tile while loop:
`tile_state == TileLoad::Failed && (first_load || tile.z > 0)`.
The second conjunct tests the zoom of the originally requested tile,
which the loop never changes. -/
def fetch_tile_cond (tile : TilePos) (s : FetchTileState) : Bool :=
  decide (s.tile_state = .Failed) && (s.first_load || decide (0 < tile.z))

/-- One iteration of the fetch_tile loop body: probe the disk at the
current ancestor; on a hit, decode (outcome given by the decodeOk
oracle) and produce Loaded (exact hit) or Loading (ancestor hit, to be
cropped via get_crop); on decode failure delete the entry; finally
clear first_load and zoom the current ancestor out. -/
def fetch_tile_body (decodeOk : String → Bool) (tile : TilePos)
    (s : FetchTileState) : FetchTileState :=
  let disk := get_file_path s.loaded_tile
  let s1 :=
    if s.store disk then
      if decodeOk disk then
        if s.first_load then
          { s with tile_state := .Loaded s.loaded_tile }
        else
          { s with tile_state := .Loading s.loaded_tile tile }
      else
        { s with store := fun p => if p = disk then false else s.store p }
    else s
  { s1 with first_load := false, loaded_tile := s1.loaded_tile.zoom_out }

/-- The fetch_tile loop with an explicit fuel bound: `none` means the
loop is still running after `fuel` iterations; `some r` means it exited
with outcome `r`. -/
def fetch_tile_loop (decodeOk : String → Bool) (tile : TilePos) :
    Nat → FetchTileState → Option TileLoadM
  | 0, _ => none
  | fuel + 1, s =>
    if fetch_tile_cond tile s then
      fetch_tile_loop decodeOk tile fuel (fetch_tile_body decodeOk tile s)
    else some s.tile_state

/-- Initial state of fetch_tile for a requested tile over a given disk
store. -/
def fetch_tile_init (store : String → Bool) (tile : TilePos) : FetchTileState :=
  { tile_state := .Failed, first_load := true, loaded_tile := tile, store := store }

/-- The loop state reached when the probe has fallen to zoom 0 with an
empty store: a fixed point of the loop body. -/
def fetch_tile_stuck : FetchTileState :=
  { tile_state := .Failed, first_load := false, loaded_tile := ⟨0, 0, 0, 0⟩,
    store := fun _ => false }

/-- The stuck state never exits, whatever the fuel. -/
theorem fetch_tile_stuck_spins (decodeOk : String → Bool) :
    ∀ fuel : Nat,
      fetch_tile_loop decodeOk ⟨1, 0, 0, 0⟩ fuel fetch_tile_stuck = none := by
  intro fuel
  induction fuel with
  | zero => rfl
  | succ n ih =>
    have hbody : fetch_tile_body decodeOk ⟨1, 0, 0, 0⟩ fetch_tile_stuck
        = fetch_tile_stuck := rfl
    have hcond : fetch_tile_cond ⟨1, 0, 0, 0⟩ fetch_tile_stuck = true := rfl
    simp only [fetch_tile_loop, hcond, if_true, hbody]
    exact ih

/-- C2: with nothing on disk, a request at zoom 1 makes the fetch_tile
loop spin forever: the guard tests the requested tile's zoom (which
stays 1) instead of the probed ancestor's, and zoom_out is a no-op at
zoom 0, so no fuel bound suffices — refuting the claimed MAX_ZOOM bound
on the ancestor search and its guaranteed termination. -/
theorem c2_fetch_tile_nonterminating :
    ∀ (decodeOk : String → Bool) (fuel : Nat),
      fetch_tile_loop decodeOk ⟨1, 0, 0, 0⟩ fuel
        (fetch_tile_init (fun _ => false) ⟨1, 0, 0, 0⟩) = none := by
  intro decodeOk fuel
  cases fuel with
  | zero => rfl
  | succ n =>
    have hcond : fetch_tile_cond ⟨1, 0, 0, 0⟩
        (fetch_tile_init (fun _ => false) ⟨1, 0, 0, 0⟩) = true := rfl
    have hbody : fetch_tile_body decodeOk ⟨1, 0, 0, 0⟩
        (fetch_tile_init (fun _ => false) ⟨1, 0, 0, 0⟩) = fetch_tile_stuck := by
      simp [fetch_tile_body, fetch_tile_init, fetch_tile_stuck, TilePos.zoom_out]
    simp only [fetch_tile_loop, hcond, if_true, hbody]
    exact fetch_tile_stuck_spins decodeOk n

/-! ## C3, C9: fetch_tile_from_server (src/opengl_helper.rs 250-331) -/

/-- PNG magic bytes (\x89PNG). -/
def pngMagic : List Nat := [0x89, 0x50, 0x4E, 0x47]

/-- JPEG magic bytes (\xFF\xD8). -/
def jpegMagic : List Nat := [0xFF, 0xD8]

/-- Tile URL for source 0 (tile.openstreetmap.org/{z}/{x}/{y}.png). -/
def osm_url (t : TilePos) : String :=
  "https://tile.openstreetmap.org/" ++ natStr t.z ++ "/" ++ natStr t.x
    ++ "/" ++ natStr t.y ++ ".png"

/-- Tile URL for nonzero sources (arcgisonline World_Imagery); the row
and column are swapped relative to source 0. -/
def esri_url (t : TilePos) : String :=
  "https://services.arcgisonline.com/ArcGIS/rest/services/World_Imagery/MapServer/tile/"
    ++ natStr t.z ++ "/" ++ natStr t.y ++ "/" ++ natStr t.x

/-- Tail of fetch_tile_from_server after its download loop
(src/opengl_helper.rs lines 315-330): decode the downloaded bytes
(`decode` abstracts image::load_from_memory; none = decode error),
then save the re-encoded image to the tile's disk path unconditionally
(`encodePng` abstracts the PNG encoding done by RgbaImage::save), and
return the Loaded outcome.  The result pairs the outcome with the
on-disk store after the call. -/
def decode_and_save (decode : List Nat → Option Nat) (encodePng : Nat → List Nat)
    (store : String → Option (List Nat)) (tile : TilePos) (data : List Nat) :
    Except String TileLoadM × (String → Option (List Nat)) :=
  match decode data with
  | none => (.error "decode error", store)
  | some img =>
    let disk := get_file_path tile
    (.ok (.Loaded tile), fun p => if p = disk then some (encodePng img) else store p)

/-- fetch_tile_from_server from src/opengl_helper.rs, with the external
collaborators as oracles: `http` maps a URL to the response
(status code, body bytes) — a transport failure is any non-200 code.
The source's while loop runs its body at most once: the guard
`(response_code != 200 && tile.m == 1 && count == 0) ||
(tile.m == 0 && count == 0)` requires count == 0, count becomes 1 at
the end of the first pass, and on success response_code == 200
falsifies the first disjunct; for sources other than 0 and 1 the guard
is false from the start and `data` stays empty.  The body is therefore
modelled inlined once, guarded by m ∈ {0, 1}. -/
def fetch_tile_from_server (http : String → Nat × List Nat)
    (decode : List Nat → Option Nat) (encodePng : Nat → List Nat)
    (store : String → Option (List Nat)) (tile : TilePos) :
    Except String TileLoadM × (String → Option (List Nat)) :=
  if tile.m = 1 ∨ tile.m = 0 then
    let url := if tile.m = 0 then osm_url tile else esri_url tile
    let code := (http url).1
    let data := (http url).2
    if code ≠ 200 then (.error "HTTP error", store)
    else if data.length < 4 then
      (.error "Downloaded data too small to be valid image", store)
    else if data.take 4 ≠ pngMagic ∧ data.take 2 ≠ jpegMagic then
      (.error "Not a PNG or JPEG", store)
    else decode_and_save decode encodePng store tile data
  else decode_and_save decode encodePng store tile []

/-- A successful decode_and_save stores the re-encoded image at the
tile's path, whatever was stored there before. -/
theorem decode_and_save_ok (decode : List Nat → Option Nat) (encodePng : Nat → List Nat)
    (store : String → Option (List Nat)) (tile : TilePos) (data : List Nat)
    (res : TileLoadM)
    (hok : (decode_and_save decode encodePng store tile data).1 = Except.ok res) :
    ∃ img, (decode_and_save decode encodePng store tile data).2 (get_file_path tile)
      = some (encodePng img) := by
  unfold decode_and_save at hok ⊢
  cases hdec : decode data with
  | none => rw [hdec] at hok; exact absurd hok (by simp)
  | some img => rw [hdec] at hok; exact ⟨img, by simp⟩

/-- C9: fetch_tile_from_server fails — returning an error and leaving
the on-disk store untouched — whenever the HTTP status is not 200 or
the downloaded bytes do not begin with the PNG magic \x89PNG or the
JPEG magic \xFF\xD8; and it returns a Loaded outcome only when the
request was made (source 0 or 1), the status was 200 and the bytes
passed the magic validation (given that the real decoder rejects the
empty byte string). -/
theorem c9_server_validation (http : String → Nat × List Nat)
    (decode : List Nat → Option Nat) (encodePng : Nat → List Nat)
    (store : String → Option (List Nat)) (tile : TilePos)
    (code : Nat) (data : List Nat)
    (hresp : http (if tile.m = 0 then osm_url tile else esri_url tile) = (code, data)) :
    ((tile.m = 1 ∨ tile.m = 0) →
      (code ≠ 200 ∨ ¬ (data.take 4 = pngMagic ∨ data.take 2 = jpegMagic)) →
      (∃ e, (fetch_tile_from_server http decode encodePng store tile).1 = Except.error e)
        ∧ (fetch_tile_from_server http decode encodePng store tile).2 = store)
    ∧ (decode [] = none →
        ∀ res, (fetch_tile_from_server http decode encodePng store tile).1 = Except.ok res →
          ((tile.m = 1 ∨ tile.m = 0) ∧ code = 200
            ∧ (data.take 4 = pngMagic ∨ data.take 2 = jpegMagic))) := by
  constructor
  · intro hm hbad
    rw [fetch_tile_from_server, if_pos hm]
    simp only [hresp]
    rcases hbad with hcode | hmagic
    · rw [if_pos hcode]
      exact ⟨⟨_, rfl⟩, rfl⟩
    · by_cases hcode : code = 200
      · rw [if_neg (by simp [hcode])]
        by_cases hsmall : data.length < 4
        · rw [if_pos hsmall]
          exact ⟨⟨_, rfl⟩, rfl⟩
        · rw [if_neg hsmall, if_pos (by push_neg at hmagic; exact hmagic)]
          exact ⟨⟨_, rfl⟩, rfl⟩
      · rw [if_pos hcode]
        exact ⟨⟨_, rfl⟩, rfl⟩
  · intro hdec res hok
    by_cases hm : tile.m = 1 ∨ tile.m = 0
    · refine ⟨hm, ?_⟩
      rw [fetch_tile_from_server, if_pos hm] at hok
      simp only [hresp] at hok
      by_cases hcode : code = 200
      · refine ⟨hcode, ?_⟩
        rw [if_neg (by simp [hcode])] at hok
        by_cases hsmall : data.length < 4
        · rw [if_pos hsmall] at hok
          exact absurd hok (by simp)
        · rw [if_neg hsmall] at hok
          by_cases hmagic : data.take 4 = pngMagic ∨ data.take 2 = jpegMagic
          · exact hmagic
          · push_neg at hmagic
            rw [if_pos hmagic] at hok
            exact absurd hok (by simp)
      · rw [if_pos hcode] at hok
        exact absurd hok (by simp)
    · exfalso
      rw [fetch_tile_from_server, if_neg hm] at hok
      rw [show decode_and_save decode encodePng store tile []
          = (Except.error "decode error", store) from by
            unfold decode_and_save; rw [hdec]] at hok
      exact absurd hok (by simp)

/-- C9 witness: a 404 response at the origin tile yields an error and
leaves the store unchanged. -/
theorem c9_server_validation_witness :
    (∃ e, (fetch_tile_from_server (fun _ => (404, [])) (fun _ => none) (fun _ => [])
        (fun _ => none) ⟨0, 0, 0, 0⟩).1 = Except.error e)
      ∧ (fetch_tile_from_server (fun _ => (404, [])) (fun _ => none) (fun _ => [])
          (fun _ => none) ⟨0, 0, 0, 0⟩).2 = (fun _ => none) :=
  (c9_server_validation (fun _ => (404, [])) (fun _ => none) (fun _ => [])
    (fun _ => none) ⟨0, 0, 0, 0⟩ 404 [] rfl).1 (Or.inr rfl) (Or.inl (by decide))

/-- C3 counterexample: an address whose entry is already stored
(bytes [0]) is fetched and saved again; the save in
fetch_tile_from_server is unconditional, and the stored bytes change to
the re-encoded download ([1]) — refuting "a subsequent fetch-and-save
for that address leaves the existing entry's bytes unchanged". -/
theorem c3_counterexample :
    ((fun p => if p = "Tiles/OSMTile_0_0_0.png" then some [0]
        else (none : Option (List Nat))) "Tiles/OSMTile_0_0_0.png" = some [0])
    ∧ (fetch_tile_from_server (fun _ => (200, pngMagic)) (fun _ => some 0) (fun _ => [1])
        (fun p => if p = "Tiles/OSMTile_0_0_0.png" then some [0] else none)
        ⟨0, 0, 0, 0⟩).1 = Except.ok (TileLoadM.Loaded ⟨0, 0, 0, 0⟩)
    ∧ (fetch_tile_from_server (fun _ => (200, pngMagic)) (fun _ => some 0) (fun _ => [1])
        (fun p => if p = "Tiles/OSMTile_0_0_0.png" then some [0] else none)
        ⟨0, 0, 0, 0⟩).2 "Tiles/OSMTile_0_0_0.png" = some [1]
    ∧ ¬ ((fetch_tile_from_server (fun _ => (200, pngMagic)) (fun _ => some 0) (fun _ => [1])
        (fun p => if p = "Tiles/OSMTile_0_0_0.png" then some [0] else none)
        ⟨0, 0, 0, 0⟩).2 "Tiles/OSMTile_0_0_0.png" = some [0]) :=
  ⟨rfl, rfl, by decide, by decide⟩

/-- C3 amended: saving a fetched tile writes unconditionally — after
every successful fetch_tile_from_server call, the store entry at the
tile's path holds the newly re-encoded download, whatever entry (if
any) was stored there before; the code never checks for an existing
entry before writing. -/
theorem c3_amended (http : String → Nat × List Nat)
    (decode : List Nat → Option Nat) (encodePng : Nat → List Nat)
    (store : String → Option (List Nat)) (tile : TilePos) (res : TileLoadM)
    (hok : (fetch_tile_from_server http decode encodePng store tile).1 = Except.ok res) :
    ∃ img, (fetch_tile_from_server http decode encodePng store tile).2 (get_file_path tile)
      = some (encodePng img) := by
  rw [fetch_tile_from_server] at hok ⊢
  by_cases hm : tile.m = 1 ∨ tile.m = 0
  · rw [if_pos hm] at hok ⊢
    by_cases hcode : (http (if tile.m = 0 then osm_url tile else esri_url tile)).1 ≠ 200
    · rw [if_pos hcode] at hok
      exact absurd hok (by simp)
    · rw [if_neg hcode] at hok ⊢
      by_cases hsmall :
          (http (if tile.m = 0 then osm_url tile else esri_url tile)).2.length < 4
      · rw [if_pos hsmall] at hok
        exact absurd hok (by simp)
      · rw [if_neg hsmall] at hok ⊢
        by_cases hmagic :
            (http (if tile.m = 0 then osm_url tile else esri_url tile)).2.take 4 ≠ pngMagic
              ∧ (http (if tile.m = 0 then osm_url tile else esri_url tile)).2.take 2 ≠ jpegMagic
        · rw [if_pos hmagic] at hok
          exact absurd hok (by simp)
        · rw [if_neg hmagic] at hok ⊢
          exact decode_and_save_ok _ _ _ _ _ _ hok
  · rw [if_neg hm] at hok ⊢
    exact decode_and_save_ok _ _ _ _ _ _ hok

/-- C3 amended, witness at the counterexample's inputs. -/
theorem c3_amended_witness :
    ((fetch_tile_from_server (fun _ => (200, pngMagic)) (fun _ => some 0) (fun _ => [1])
        (fun p => if p = "Tiles/OSMTile_0_0_0.png" then some [0] else none)
        ⟨0, 0, 0, 0⟩).1 = Except.ok (TileLoadM.Loaded ⟨0, 0, 0, 0⟩))
      ∧ ∃ _img : Nat, (fetch_tile_from_server (fun _ => (200, pngMagic)) (fun _ => some 0)
          (fun _ => [1])
          (fun p => if p = "Tiles/OSMTile_0_0_0.png" then some [0] else none)
          ⟨0, 0, 0, 0⟩).2 (get_file_path ⟨0, 0, 0, 0⟩)
          = some [1] :=
  ⟨rfl, c3_amended (fun _ => (200, pngMagic)) (fun _ => some 0) (fun _ => [1])
    (fun p => if p = "Tiles/OSMTile_0_0_0.png" then some [0] else none)
    ⟨0, 0, 0, 0⟩ (TileLoadM.Loaded ⟨0, 0, 0, 0⟩) rfl⟩

/-! ## LruCache model (lru crate), shared by the texture cache (C4) and
the in-flight state table (C10) -/

/-- Whether an lru::LruCache, modelled as an association list in
most-recently-used-first order, contains a key. -/
def lru_contains (c : List (TilePos × Nat)) (k : TilePos) : Bool :=
  c.any fun e => decide (e.1 = k)

/-- LruCache::put: an existing key is updated and promoted to the
front; a fresh key is pushed to the front, evicting the
least-recently-used (last) entry when the cache is at capacity.  The
second component is the evicted entry, which the callers in main.rs
always discard. -/
def lru_put (cap : Nat) (c : List (TilePos × Nat)) (k : TilePos) (v : Nat) :
    List (TilePos × Nat) × Option (TilePos × Nat) :=
  if lru_contains c k then
    ((k, v) :: c.filter (fun e => decide (e.1 ≠ k)), none)
  else if c.length < cap then
    ((k, v) :: c, none)
  else
    ((k, v) :: c.dropLast, c.getLast?)

/-- LruCache::get_key_value: returns the entry for the key, promoting
it to most-recently-used. -/
def lru_get_key_value (c : List (TilePos × Nat)) (k : TilePos) :
    Option (TilePos × Nat) × List (TilePos × Nat) :=
  match c.find? (fun e => decide (e.1 = k)) with
  | none => (none, c)
  | some e => (some e, e :: c.filter (fun e2 => decide (e2.1 ≠ k)))

/-- Every entry of a cache after put is the new entry or an old one. -/
theorem lru_put_mem (cap : Nat) (c : List (TilePos × Nat)) (k : TilePos) (v : Nat) :
    ∀ e ∈ (lru_put cap c k v).1, e = (k, v) ∨ e ∈ c := by
  intro e he
  unfold lru_put at he
  split at he
  · rcases List.mem_cons.mp he with h | h
    · exact Or.inl h
    · exact Or.inr (List.mem_of_mem_filter h)
  · split at he
    · rcases List.mem_cons.mp he with h | h
      · exact Or.inl h
      · exact Or.inr h
    · rcases List.mem_cons.mp he with h | h
      · exact Or.inl h
      · exact Or.inr (List.dropLast_subset c h)

/-- Putting a fresh key grows the cache by one entry up to the
capacity, at which it stays. -/
theorem lru_put_fresh_length (cap : Nat) (c : List (TilePos × Nat)) (k : TilePos) (v : Nat)
    (hfresh : lru_contains c k = false) (hcap : 0 < cap) (hle : c.length ≤ cap) :
    ((lru_put cap c k v).1).length = min (c.length + 1) cap := by
  unfold lru_put
  rw [if_neg (by rw [hfresh]; exact Bool.false_ne_true)]
  split
  next h => simp only [List.length_cons]; omega
  next h =>
    simp only [List.length_cons, List.length_dropLast]
    omega

/-- Every entry surviving a promoting lookup was already present. -/
theorem lru_get_mem (c : List (TilePos × Nat)) (k : TilePos) :
    ∀ e ∈ (lru_get_key_value c k).2, e ∈ c := by
  intro e he
  unfold lru_get_key_value at he
  split at he
  · exact he
  next e0 hf =>
    rcases List.mem_cons.mp he with h | h
    · rw [h]; exact List.mem_of_find?_eq_some hf
    · exact List.mem_of_mem_filter h

/-- A promoting lookup that finds an entry found a present one. -/
theorem lru_get_found_mem (c : List (TilePos × Nat)) (k : TilePos) (e : TilePos × Nat)
    (hf : (lru_get_key_value c k).1 = some e) : e ∈ c := by
  unfold lru_get_key_value at hf
  split at hf
  · exact absurd hf (by simp)
  next e0 hfind =>
    simp only [Option.some.injEq] at hf
    rw [← hf]
    exact List.mem_of_find?_eq_some hfind

/-! ## C4: the texture cache drain loop (src/main.rs 166-167, 403-422) -/

/-- State of the render thread's texture bookkeeping: the
tile_cache LRU (capacity 128, from main.rs line 167), the next fresh
texture handle produced by create_texture_from_bitmap, the handles
evicted by put (and dropped by the code), and the handles passed to the
renderer's release primitive (gl::DeleteTextures — the drain loop never
calls it, so no step extends this list). -/
structure DrainState where
  cache : List (TilePos × Nat)
  next_id : Nat
  evicted : List Nat
  released : List Nat
  deriving DecidableEq, Repr

/-- One iteration of the result-channel drain loop in src/main.rs
(lines 403-422) for a successful outcome keyed by `addr` (source_tile
for Loaded, target_tile for Loading): upload a fresh texture handle and
put it into tile_cache; the value returned by put (the evicted entry)
is discarded without releasing its handle. -/
def drain_step (s : DrainState) (addr : TilePos) : DrainState :=
  let tex_id := s.next_id
  let r := lru_put 128 s.cache addr tex_id
  { cache := r.1
    next_id := s.next_id + 1
    evicted := s.evicted ++ (r.2.map fun e => e.2).toList
    released := s.released }

/-- The drain loop run from the program's initial (empty) texture
cache over a sequence of resolved addresses. -/
def run_drain (addrs : List TilePos) : DrainState :=
  addrs.foldl drain_step ⟨[], 0, [], []⟩

/-- Inserting fresh distinct addresses grows the cache to capacity 128
and never releases a handle. -/
theorem run_drain_from (L : List TilePos) :
    ∀ s : DrainState, L.Nodup → (∀ e ∈ s.cache, e.1 ∉ L) → s.cache.length ≤ 128 →
    ((L.foldl drain_step s).cache.length = min (s.cache.length + L.length) 128
      ∧ (L.foldl drain_step s).released = s.released) := by
  induction L with
  | nil =>
    intro s _ _ hle
    simp only [List.foldl_nil, List.length_nil, Nat.add_zero]
    exact ⟨(min_eq_left hle).symm, trivial⟩
  | cons a rest ih =>
    intro s hnd hdisj hle
    obtain ⟨ha, hndrest⟩ := List.nodup_cons.mp hnd
    have hfresh : lru_contains s.cache a = false := by
      by_contra hcon
      rw [Bool.not_eq_false, lru_contains, List.any_eq_true] at hcon
      obtain ⟨e, he, hek⟩ := hcon
      rw [decide_eq_true_iff] at hek
      exact hdisj e he (by rw [hek]; exact List.mem_cons_self a rest)
    have hlen1 : (drain_step s a).cache.length = min (s.cache.length + 1) 128 :=
      lru_put_fresh_length 128 s.cache a s.next_id hfresh (by norm_num) hle
    have hdisj2 : ∀ e ∈ (drain_step s a).cache, e.1 ∉ rest := by
      intro e he
      rcases lru_put_mem 128 s.cache a s.next_id e he with h | h
      · rw [h]; exact ha
      · intro hin
        exact hdisj e h (List.mem_cons_of_mem a hin)
    have hle2 : (drain_step s a).cache.length ≤ 128 := by rw [hlen1]; omega
    obtain ⟨h1, h2⟩ := ih (drain_step s a) hndrest hdisj2 hle2
    refine ⟨?_, h2⟩
    rw [List.foldl_cons] at *
    rw [h1, hlen1]
    simp only [List.length_cons]
    omega

set_option maxRecDepth 40000 in
/-- C4 counterexample: after inserting 129 distinct addresses into the
empty texture cache, 128 entries remain and one entry (handle 0, the
least recently used) was evicted — but the drain loop discards the value
returned by put, so the released-handle list stays empty and the evicted
handle is released zero times, not exactly once. -/
theorem c4_counterexample :
    (run_drain ((List.range 129).map fun i => ⟨0, i, 0, 0⟩)).cache.length = 128
      ∧ (run_drain ((List.range 129).map fun i => ⟨0, i, 0, 0⟩)).evicted = [0]
      ∧ (run_drain ((List.range 129).map fun i => ⟨0, i, 0, 0⟩)).released = []
      ∧ ¬ (∀ h ∈ (run_drain ((List.range 129).map fun i => ⟨0, i, 0, 0⟩)).evicted,
            ((run_drain ((List.range 129).map fun i => ⟨0, i, 0, 0⟩)).released.count h = 1)) := by
  refine ⟨by decide, by decide, by decide, fun hall => ?_⟩
  exact absurd (hall 0 (by decide)) (by decide)

/-- C4 amended: the TextureCache is a bounded LRU of capacity 128 —
after inserting M > 128 distinct addresses exactly 128 entries remain —
but the evicted entries' texture handles are never released: the drain
loop drops the entry evicted by put and the renderer release primitive
is never invoked. -/
theorem c4_amended (L : List TilePos) (hnd : L.Nodup) (hlen : 128 < L.length) :
    (run_drain L).cache.length = 128 ∧ (run_drain L).released = [] := by
  obtain ⟨h1, h2⟩ := run_drain_from L ⟨[], 0, [], []⟩ hnd (by simp) (by simp)
  constructor
  · rw [run_drain, h1]
    simp only [List.length_nil, Nat.zero_add]
    omega
  · rw [run_drain, h2]

/-- C4 amended, witness at the 129 distinct addresses of the
counterexample. -/
theorem c4_amended_witness :
    (((List.range 129).map fun i => (⟨0, i, 0, 0⟩ : TilePos)).Nodup
        ∧ 128 < ((List.range 129).map fun i => (⟨0, i, 0, 0⟩ : TilePos)).length)
      ∧ ((run_drain ((List.range 129).map fun i => ⟨0, i, 0, 0⟩)).cache.length = 128
          ∧ (run_drain ((List.range 129).map fun i => ⟨0, i, 0, 0⟩)).released = []) :=
  ⟨⟨List.Nodup.map (fun i j hij => by simpa [TilePos.mk.injEq] using hij) (List.nodup_range 129),
      by simp⟩,
    c4_amended ((List.range 129).map fun i => ⟨0, i, 0, 0⟩)
      (List.Nodup.map (fun i j hij => by simpa [TilePos.mk.injEq] using hij)
        (List.nodup_range 129))
      (by simp)⟩

/-! ## C10: the in-flight state table (src/main.rs 168-258) -/

/-- One worker-thread iteration from src/main.rs for a received job:
consult tile_cache_buf (the in-flight LRU of capacity 64;
get_key_value promotes the entry).  On a miss, mark the address 0
(Requested), run fetch_tile (outcome given by the `fetch` oracle), then
mark 2 (Resolved) for Loaded, 1 (ApproximationSent) for Loading, and
fall through to fetch_tile_from_server for Failed.  On a hit, refetch
only when the stored value equals 3; otherwise do nothing.  The Bool
records whether the iteration invoked fetch_tile or
fetch_tile_from_server at all. -/
def worker_step (fetch : TilePos → TileLoadM) (buf : List (TilePos × Nat))
    (tile_pos : TilePos) : List (TilePos × Nat) × Bool :=
  match (lru_get_key_value buf tile_pos).1 with
  | none =>
    match fetch tile_pos with
    | .Loaded _ =>
      ((lru_put 64 (lru_put 64 (lru_get_key_value buf tile_pos).2 tile_pos 0).1
        tile_pos 2).1, true)
    | .Loading _ _ =>
      ((lru_put 64 (lru_put 64 (lru_get_key_value buf tile_pos).2 tile_pos 0).1
        tile_pos 1).1, true)
    | .Failed => ((lru_put 64 (lru_get_key_value buf tile_pos).2 tile_pos 0).1, true)
  | some e =>
    if e.2 = 3 then ((lru_get_key_value buf tile_pos).2, true)
    else ((lru_get_key_value buf tile_pos).2, false)

/-- The in-flight table reached by a worker processing a job list from
the program's initial empty table. -/
def worker_run (fetch : TilePos → TileLoadM) (jobs : List TilePos) :
    List (TilePos × Nat) :=
  jobs.foldl (fun b j => (worker_step fetch b j).1) []

/-- The in-flight table only ever holds the state values 0, 1, 2. -/
def goodBuf (b : List (TilePos × Nat)) : Prop :=
  ∀ e ∈ b, e.2 = 0 ∨ e.2 = 1 ∨ e.2 = 2

/-- A worker iteration preserves the state-value invariant. -/
theorem worker_step_good (fetch : TilePos → TileLoadM) (b : List (TilePos × Nat))
    (j : TilePos) (hg : goodBuf b) : goodBuf (worker_step fetch b j).1 := by
  have hget : goodBuf (lru_get_key_value b j).2 := fun e he => hg e (lru_get_mem b j e he)
  unfold worker_step
  cases hr : (lru_get_key_value b j).1 with
  | none =>
    have hput0 : goodBuf (lru_put 64 (lru_get_key_value b j).2 j 0).1 := by
      intro e he
      rcases lru_put_mem 64 (lru_get_key_value b j).2 j 0 e he with h | h
      · rw [h]; exact Or.inl rfl
      · exact hget e h
    cases hf : fetch j with
    | Loaded src =>
      intro e he
      simp only [hf] at he
      rcases lru_put_mem 64 (lru_put 64 (lru_get_key_value b j).2 j 0).1 j 2 e he with h | h
      · rw [h]; exact Or.inr (Or.inr rfl)
      · exact hput0 e h
    | Loading src tgt =>
      intro e he
      simp only [hf] at he
      rcases lru_put_mem 64 (lru_put 64 (lru_get_key_value b j).2 j 0).1 j 1 e he with h | h
      · rw [h]; exact Or.inr (Or.inl rfl)
      · exact hput0 e h
    | Failed =>
      intro e he
      simp only [hf] at he
      exact hput0 e he
  | some e0 =>
    intro e he
    apply hget e
    by_cases h3 : e0.2 = 3
    · simpa [h3] using he
    · simpa [h3] using he

/-- The state-value invariant holds along any worker run. -/
theorem worker_run_good (fetch : TilePos → TileLoadM) (jobs : List TilePos) :
    ∀ b : List (TilePos × Nat), goodBuf b →
      goodBuf (jobs.foldl (fun b2 j => (worker_step fetch b2 j).1) b) := by
  induction jobs with
  | nil => intro b hb; exact hb
  | cons j rest ih =>
    intro b hb
    exact ih (worker_step fetch b j).1 (worker_step_good fetch b j hb)

/-- C10: in every table state reachable by a worker from the empty
in-flight table, the stored values are only 0 (Requested),
1 (ApproximationSent) or 2 (Resolved); the expired value 3 that the
duplicate branch tests for is never stored, so a job whose address is
already in the table triggers no fetch at all. -/
theorem c10_inflight_states (fetch : TilePos → TileLoadM) (jobs : List TilePos) :
    (∀ e ∈ worker_run fetch jobs, e.2 = 0 ∨ e.2 = 1 ∨ e.2 = 2)
      ∧ (∀ (job : TilePos) (e : TilePos × Nat),
          (lru_get_key_value (worker_run fetch jobs) job).1 = some e →
            (worker_step fetch (worker_run fetch jobs) job).2 = false) := by
  have hgood : goodBuf (worker_run fetch jobs) :=
    worker_run_good fetch jobs [] (by intro e he; exact absurd he (List.not_mem_nil e))
  refine ⟨hgood, ?_⟩
  intro job e hfind
  have hmem : e ∈ worker_run fetch jobs :=
    lru_get_found_mem (worker_run fetch jobs) job e hfind
  have hval : e.2 ≠ 3 := by
    rcases hgood e hmem with h | h | h <;> omega
  unfold worker_step
  simp only [hfind]
  rw [if_neg hval]

/-- C10 witness: after one Failed resolution the table holds the job at
state 0, and re-submitting that job performs no fetch. -/
theorem c10_inflight_states_witness :
    ((lru_get_key_value (worker_run (fun _ => TileLoadM.Failed) [⟨0, 0, 0, 0⟩]) ⟨0, 0, 0, 0⟩).1
        = some (⟨0, 0, 0, 0⟩, 0))
      ∧ (worker_step (fun _ => TileLoadM.Failed)
          (worker_run (fun _ => TileLoadM.Failed) [⟨0, 0, 0, 0⟩]) ⟨0, 0, 0, 0⟩).2 = false :=
  ⟨by decide,
    (c10_inflight_states (fun _ => TileLoadM.Failed) [⟨0, 0, 0, 0⟩]).2
      ⟨0, 0, 0, 0⟩ (⟨0, 0, 0, 0⟩, 0) (by decide)⟩
